import Mathlib

/-!
Verification of the single-player Blackjack program (`singleplayer.py`).

The program is shallowly embedded: each Python method becomes a Lean
function over explicit state.  Mutable state (the shoe's shared card
list, the player's balance, the hands) is passed explicitly.  The
`random.shuffle` call is modelled by an arbitrary function
`perm : List Card → List Card` together with a hypothesis that it
preserves length (a random permutation does).  Blocking `input()` calls
are modelled by consuming a list of input strings; the dealer's card
supply in `play_turn` is modelled by a stream `Nat → Card` (every
`deal_card` call returns a card there).
-/

namespace Blackjack

/-- Card ranks, mirroring `Shoe.ranks = ['2',...,'10','J','Q','K','A']`. -/
inductive Rank where
  | r2 | r3 | r4 | r5 | r6 | r7 | r8 | r9 | r10
  | J | Q | K | A
deriving DecidableEq, Repr

/-- Card suits, mirroring `Shoe.suits` (four symbols). -/
inductive Suit where
  | spade | club | heart | diamond
deriving DecidableEq, Repr

/-- `Card(rank, suit)`: an immutable rank/suit pair. -/
structure Card where
  rank : Rank
  suit : Suit
deriving DecidableEq, Repr

/-- One step of the accumulation loop in `Hand.calculate_value`:
given the running `(value, aces)` pair, add the card's contribution
(J/Q/K add 10; A adds 11 and counts an ace; numeric ranks add their
face value via `int(card.rank)`). -/
def cardStep (acc : Nat × Nat) (c : Card) : Nat × Nat :=
  match c.rank with
  | .J => (acc.1 + 10, acc.2)
  | .Q => (acc.1 + 10, acc.2)
  | .K => (acc.1 + 10, acc.2)
  | .A => (acc.1 + 11, acc.2 + 1)
  | .r2 => (acc.1 + 2, acc.2)
  | .r3 => (acc.1 + 3, acc.2)
  | .r4 => (acc.1 + 4, acc.2)
  | .r5 => (acc.1 + 5, acc.2)
  | .r6 => (acc.1 + 6, acc.2)
  | .r7 => (acc.1 + 7, acc.2)
  | .r8 => (acc.1 + 8, acc.2)
  | .r9 => (acc.1 + 9, acc.2)
  | .r10 => (acc.1 + 10, acc.2)

/-- The `while value > 21 and aces:` loop of `Hand.calculate_value`:
subtract 10 and consume one ace while the value exceeds 21 and an
unreduced ace remains. -/
def adjustAces : Nat → Nat → Nat
  | v, 0 => v
  | v, a + 1 => if v > 21 then adjustAces (v - 10) a else v

/-- `Hand.calculate_value`: fold the accumulation loop over the cards
in order, then run the ace-adjustment loop. -/
def calculate_value (cards : List Card) : Nat :=
  let p := cards.foldl cardStep (0, 0)
  adjustAces p.1 p.2

/-- Modelled from the spec: a card's initial value — numeric cards at
face value, J/Q/K at 10, every Ace initially at 11. -/
def initValue (c : Card) : Nat :=
  match c.rank with
  | .r2 => 2 | .r3 => 3 | .r4 => 4 | .r5 => 5 | .r6 => 6
  | .r7 => 7 | .r8 => 8 | .r9 => 9 | .r10 => 10
  | .J => 10 | .Q => 10 | .K => 10 | .A => 11

/-- Modelled from the spec: the sum of initial card values of a hand. -/
def baseValue (cards : List Card) : Nat :=
  (cards.map initValue).sum

/-- Modelled from the spec: the number of Aces in a hand. -/
def acesCount (cards : List Card) : Nat :=
  cards.countP (fun c => c.rank = Rank.A)

theorem foldl_cardStep (cards : List Card) :
    ∀ v a, cards.foldl cardStep (v, a) = (v + baseValue cards, a + acesCount cards) := by
  induction cards with
  | nil => intro v a; simp [baseValue, acesCount]
  | cons c rest ih =>
    intro v a
    have hstep : ∀ v a, cardStep (v, a) c =
        (v + initValue c, a + (if c.rank = Rank.A then 1 else 0)) := by
      intro v a
      cases h : c.rank <;> simp [cardStep, initValue, h]
    rw [List.foldl_cons, hstep, ih]
    rcases h : c.rank <;>
      simp [baseValue, acesCount, List.countP_cons, h, Nat.add_assoc, Nat.add_comm,
        Nat.add_left_comm]

/-- `calculate_value` decomposes as: sum of initial values (Aces at 11),
then the ace-reduction loop applied to that sum and the ace count. -/
theorem calculate_value_eq (cards : List Card) :
    calculate_value cards = adjustAces (baseValue cards) (acesCount cards) := by
  show adjustAces (cards.foldl cardStep (0, 0)).1 (cards.foldl cardStep (0, 0)).2 =
    adjustAces (baseValue cards) (acesCount cards)
  rw [foldl_cardStep]
  simp

/-- A card's hard value: every Ace counted as 1, other ranks as usual.
Used as the termination measure of the dealer's drawing loop. -/
def hardVal (c : Card) : Nat :=
  if c.rank = Rank.A then 1 else initValue c

/-- The hard total of a hand: sum of hard values. -/
def hardTotal (cards : List Card) : Nat :=
  (cards.map hardVal).sum

theorem one_le_hardVal (c : Card) : 1 ≤ hardVal c := by
  cases h : c.rank <;> simp [hardVal, initValue, h]

theorem hardTotal_append (hand : List Card) (c : Card) :
    hardTotal (hand ++ [c]) = hardTotal hand + hardVal c := by
  simp [hardTotal]

theorem baseValue_eq_hard (cards : List Card) :
    baseValue cards = hardTotal cards + 10 * acesCount cards := by
  induction cards with
  | nil => simp [baseValue, hardTotal, acesCount]
  | cons c rest ih =>
    rcases h : c.rank <;>
      simp [baseValue, hardTotal, acesCount, initValue, hardVal, h, List.countP_cons] at * <;>
      omega

theorem le_adjustAces (a : Nat) : ∀ v h, h + 10 * a ≤ v → h ≤ adjustAces v a := by
  induction a with
  | zero => intro v h hle; simpa [adjustAces] using by omega
  | succ a ih =>
    intro v h hle
    rw [adjustAces]
    by_cases hv : v > 21
    · simp [hv]
      exact ih (v - 10) h (by omega)
    · simp [hv]; omega

theorem hardTotal_le_calculate_value (cards : List Card) :
    hardTotal cards ≤ calculate_value cards := by
  rw [calculate_value_eq, baseValue_eq_hard]
  exact le_adjustAces _ _ _ (le_refl _)

/-- `Dealer.play_turn`: while the hand value is below 17, draw the next
card from the stream (the shoe, assuming every `deal_card` call returns
a card) and append it to the hand.  Returns the final hand and the next
stream index (so the number of draws is the index difference). -/
def play_turn (hand : List Card) (stream : Nat → Card) (i : Nat) : List Card × Nat :=
  if calculate_value hand < 17 then
    play_turn (hand ++ [stream i]) stream (i + 1)
  else (hand, i)
termination_by 17 - hardTotal hand
decreasing_by
  have h1 := hardTotal_le_calculate_value hand
  have h2 := one_le_hardVal (stream i)
  rw [hardTotal_append]
  omega

theorem play_turn_unfold (hand : List Card) (stream : Nat → Card) (i : Nat) :
    play_turn hand stream i =
      if calculate_value hand < 17 then play_turn (hand ++ [stream i]) stream (i + 1)
      else (hand, i) := by
  rw [play_turn]

theorem play_turn_spec (n : Nat) : ∀ hand stream i, 17 - hardTotal hand ≤ n →
    17 ≤ calculate_value (play_turn hand stream i).1 ∧
    (play_turn hand stream i).2 ≤ i + (17 - hardTotal hand) := by
  induction n with
  | zero =>
    intro hand stream i h
    rw [play_turn_unfold]
    have h1 := hardTotal_le_calculate_value hand
    have hge : ¬ calculate_value hand < 17 := by omega
    simp [hge]
    omega
  | succ n ih =>
    intro hand stream i h
    rw [play_turn_unfold]
    by_cases hc : calculate_value hand < 17
    · simp [hc]
      have h1 := hardTotal_le_calculate_value hand
      have h2 := one_le_hardVal (stream i)
      have hT := hardTotal_append hand (stream i)
      obtain ⟨hr1, hr2⟩ := ih (hand ++ [stream i]) stream (i + 1) (by omega)
      exact ⟨hr1, by omega⟩
    · simp [hc]
      have := hardTotal_le_calculate_value hand
      omega

/-- C1: `calculate_value` returns the sum of card values (numeric cards
at face value, J/Q/K at 10, every Ace initially at 11), then subtracts
10 per Ace while the total exceeds 21 and an unreduced Ace remains;
concretely {A,A,A,8} values to 21, {A,A,9} to 21, {K,Q} to 20 and
{2,3,4,5,6} to 20. -/
theorem c1_calculate_value_spec :
    (∀ cards : List Card,
      calculate_value cards = adjustAces (baseValue cards) (acesCount cards)) ∧
    calculate_value [⟨.A, .spade⟩, ⟨.A, .club⟩, ⟨.A, .heart⟩, ⟨.r8, .spade⟩] = 21 ∧
    calculate_value [⟨.A, .spade⟩, ⟨.A, .club⟩, ⟨.r9, .spade⟩] = 21 ∧
    calculate_value [⟨.K, .spade⟩, ⟨.Q, .spade⟩] = 20 ∧
    calculate_value [⟨.r2, .spade⟩, ⟨.r3, .spade⟩, ⟨.r4, .spade⟩, ⟨.r5, .spade⟩,
      ⟨.r6, .spade⟩] = 20 :=
  ⟨calculate_value_eq, by decide, by decide, by decide, by decide⟩

/-- C6: `calculate_value` is invariant under permutation of the cards —
the value is a pure function of the card multiset. -/
theorem c6_calculate_value_perm_invariant (l1 l2 : List Card) (h : l1.Perm l2) :
    calculate_value l1 = calculate_value l2 := by
  rw [calculate_value_eq, calculate_value_eq]
  have hb : baseValue l1 = baseValue l2 := (h.map initValue).sum_eq
  have ha : acesCount l1 = acesCount l2 := h.countP_eq _
  rw [hb, ha]

/-- Witness for C6 at the concrete hands [K♠, Q♥] and [Q♥, K♠]. -/
theorem c6_calculate_value_perm_invariant_witness :
    calculate_value [⟨.K, .spade⟩, ⟨.Q, .heart⟩] =
      calculate_value [⟨.Q, .heart⟩, ⟨.K, .spade⟩] :=
  c6_calculate_value_perm_invariant _ _ (List.Perm.swap _ _ _)

/-- C4: `Dealer.play_turn` draws exactly while the hand value is below
17: it never draws when the current value is at least 17 (the hand and
draw index are returned unchanged), and when it returns the hand value
is at least 17. -/
theorem c4_dealer_stands_at_17 (hand : List Card) (stream : Nat → Card) (i : Nat) :
    (17 ≤ calculate_value hand → play_turn hand stream i = (hand, i)) ∧
    17 ≤ calculate_value (play_turn hand stream i).1 := by
  constructor
  · intro hge
    rw [play_turn_unfold]
    simp [show ¬ calculate_value hand < 17 by omega]
  · exact (play_turn_spec (17 - hardTotal hand) hand stream i (le_refl _)).1

/-- Witness for C4: the dealer stands on the concrete hand [K♠, Q♠]
(value 20) and, started from an empty hand, finishes with value ≥ 17. -/
theorem c4_dealer_stands_at_17_witness :
    play_turn [⟨.K, .spade⟩, ⟨.Q, .spade⟩] (fun _ => ⟨.r2, .spade⟩) 0 =
      ([⟨.K, .spade⟩, ⟨.Q, .spade⟩], 0) ∧
    17 ≤ calculate_value (play_turn [] (fun _ => ⟨.r2, .spade⟩) 0).1 :=
  ⟨(c4_dealer_stands_at_17 _ _ 0).1 (by decide),
   (c4_dealer_stands_at_17 [] (fun _ => ⟨.r2, .spade⟩) 0).2⟩

/-- C9: `Dealer.play_turn` always terminates when every deal yields a
card: each drawn card raises the hand's hard total (Aces as 1) by at
least 1, and the loop performs at most 17 draws. -/
theorem c9_dealer_play_turn_draw_bound (hand : List Card) (stream : Nat → Card)
    (i : Nat) (c : Card) :
    hardTotal hand + 1 ≤ hardTotal (hand ++ [c]) ∧
    (play_turn hand stream i).2 ≤ i + 17 := by
  constructor
  · rw [hardTotal_append]
    have := one_le_hardVal c
    omega
  · have := (play_turn_spec (17 - hardTotal hand) hand stream i (le_refl _)).2
    omega

/-- The rank list `Shoe.ranks`, in source order. -/
def ranks : List Rank :=
  [.r2, .r3, .r4, .r5, .r6, .r7, .r8, .r9, .r10, .J, .Q, .K, .A]

/-- The suit list `Shoe.suits`, in source order. -/
def suits : List Suit :=
  [.spade, .club, .heart, .diamond]

/-- One pass of the inner loops of `Shoe.shuffle`: one card of every
rank/suit combination, i.e. one 52-card deck. -/
def oneDeck : List Card :=
  suits.flatMap (fun s => ranks.map (fun r => Card.mk r s))

/-- The cards appended by the `for _ in range(deck_count)` loop of
`Shoe.shuffle`: `deck_count` copies of a full deck. -/
def freshCards : Nat → List Card
  | 0 => []
  | n + 1 => freshCards n ++ oneDeck

/-- `Shoe.shuffle(deck_count)`: append `deck_count` decks to the current
(class-level, shared) card list and permute the whole list in place.
`random.shuffle` is modelled by `perm`, an arbitrary length-preserving
function supplied as a parameter.  `Shoe.__init__` is exactly a call of
this on the shared list. -/
def Shoe.shuffle (perm : List Card → List Card) (deck_count : Nat)
    (shoe : List Card) : List Card :=
  perm (shoe ++ freshCards deck_count)

/-- `Shoe.deal_card`: if the shoe is empty, first reshuffle with the
originally configured deck count, then `pop()` the last card.  A `pop`
from an empty list raises in Python; that failure is `none` here. -/
def Shoe.deal_card (perm : List Card → List Card) (deck_count : Nat)
    (shoe : List Card) : Option (Card × List Card) :=
  let shoe := if shoe.isEmpty then Shoe.shuffle perm deck_count shoe else shoe
  match shoe.getLast? with
  | none => none
  | some c => some (c, shoe.dropLast)

/-- `n` sequential `deal_card` calls, threading the shoe state;
`none` as soon as any call fails. -/
def dealN (perm : List Card → List Card) (deck_count : Nat) :
    Nat → List Card → Option (List Card)
  | 0, shoe => some shoe
  | n + 1, shoe =>
    match Shoe.deal_card perm deck_count shoe with
    | none => none
    | some (_, shoe) => dealN perm deck_count n shoe

theorem length_freshCards (n : Nat) : (freshCards n).length = 52 * n := by
  induction n with
  | zero => rfl
  | succ n ih =>
    have h52 : oneDeck.length = 52 := by decide
    simp [freshCards, ih, h52]
    ring

theorem length_shuffle (perm : List Card → List Card)
    (hperm : ∀ l, (perm l).length = l.length) (deck_count : Nat) (shoe : List Card) :
    (Shoe.shuffle perm deck_count shoe).length = shoe.length + 52 * deck_count := by
  simp [Shoe.shuffle, hperm, length_freshCards]

theorem deal_card_nonempty (perm : List Card → List Card) (deck_count : Nat)
    (shoe : List Card) (hne : shoe ≠ []) :
    Shoe.deal_card perm deck_count shoe =
      some (shoe.getLast hne, shoe.dropLast) := by
  unfold Shoe.deal_card
  simp [List.isEmpty_iff, hne, List.getLast?_eq_getLast shoe hne]

theorem dealN_length (perm : List Card → List Card) (deck_count : Nat) :
    ∀ k shoe, k ≤ List.length shoe →
      ∃ s, dealN perm deck_count k shoe = some s ∧ s.length = shoe.length - k := by
  intro k
  induction k with
  | zero => intro shoe _; exact ⟨shoe, rfl, rfl⟩
  | succ k ih =>
    intro shoe hk
    have hne : shoe ≠ [] := by
      intro h; rw [h] at hk; simp at hk
    obtain ⟨s, hs, hlen⟩ := ih shoe.dropLast (by simp [List.length_dropLast]; omega)
    refine ⟨s, ?_, ?_⟩
    · rw [dealN, deal_card_nonempty perm deck_count shoe hne]
      exact hs
    · rw [hlen]; simp [List.length_dropLast]; omega

theorem dealN_add (perm : List Card → List Card) (deck_count : Nat) :
    ∀ a b shoe s, dealN perm deck_count a shoe = some s →
      dealN perm deck_count (a + b) shoe = dealN perm deck_count b s := by
  intro a
  induction a with
  | zero =>
    intro b shoe s h
    obtain rfl : shoe = s := by simpa [dealN] using h
    rw [Nat.zero_add]
  | succ a ih =>
    intro b shoe s h
    rw [dealN] at h
    rcases hd : Shoe.deal_card perm deck_count shoe with _ | ⟨c, shoe2⟩ <;> rw [hd] at h
    · exact absurd h (by simp)
    · have : a + 1 + b = (a + b) + 1 := by omega
      rw [this, dealN, hd]
      exact ih b shoe2 s h

theorem deal_card_empty_shoe (perm : List Card → List Card) (d : Nat) :
    Shoe.deal_card perm d [] =
      match (Shoe.shuffle perm d []).getLast? with
      | none => none
      | some c => some (c, (Shoe.shuffle perm d []).dropLast) := rfl

theorem deal_card_empty_pos (perm : List Card → List Card)
    (hperm : ∀ l, (perm l).length = l.length) (d : Nat) (hd : 1 ≤ d) :
    ∃ c s, Shoe.deal_card perm d [] = some (c, s) ∧ s.length = 52 * d - 1 := by
  have hlen : (Shoe.shuffle perm d []).length = 52 * d := by
    rw [length_shuffle perm hperm]; simp
  have hne : Shoe.shuffle perm d [] ≠ [] := by
    intro h; rw [h] at hlen; simp at hlen; omega
  refine ⟨(Shoe.shuffle perm d []).getLast hne, (Shoe.shuffle perm d []).dropLast, ?_, ?_⟩
  · rw [deal_card_empty_shoe, List.getLast?_eq_getLast _ hne]
  · simp [List.length_dropLast, hlen]

/-- C5: a fresh Shoe with `deck_count = 1` holds exactly 52 cards after
its shuffle; each `deal_card` on a non-empty shoe removes exactly one
card, so 52 sequential deals leave 0 cards; the 53rd deal reshuffles
automatically (never surfacing an error) and deals, leaving 51 cards. -/
theorem c5_shoe_deal_counts (perm : List Card → List Card)
    (hperm : ∀ l, (perm l).length = l.length) :
    (Shoe.shuffle perm 1 []).length = 52 ∧
    (∀ shoe c s, Shoe.deal_card perm 1 shoe = some (c, s) → shoe ≠ [] →
      s.length + 1 = shoe.length) ∧
    (∃ s, dealN perm 1 52 (Shoe.shuffle perm 1 []) = some s ∧ s.length = 0) ∧
    (∃ s, dealN perm 1 53 (Shoe.shuffle perm 1 []) = some s ∧ s.length = 51) := by
  have h52 : (Shoe.shuffle perm 1 []).length = 52 := by
    rw [length_shuffle perm hperm]; simp
  have hdeal1 : ∀ shoe c s, Shoe.deal_card perm 1 shoe = some (c, s) → shoe ≠ [] →
      s.length + 1 = shoe.length := by
    intro shoe c s hsome hne
    rw [deal_card_nonempty perm 1 shoe hne] at hsome
    obtain ⟨-, rfl⟩ : c = shoe.getLast hne ∧ s = shoe.dropLast := by
      constructor <;> [exact (Prod.mk.injEq .. ▸ Option.some.inj hsome).1.symm;
        exact (Prod.mk.injEq .. ▸ Option.some.inj hsome).2.symm]
    have := List.length_pos.mpr hne
    simp [List.length_dropLast]
    omega
  obtain ⟨s52, hs52, hlen52⟩ :=
    dealN_length perm 1 52 (Shoe.shuffle perm 1 []) (by omega)
  refine ⟨h52, hdeal1, ⟨s52, hs52, by omega⟩, ?_⟩
  have hnil : s52 = [] := List.length_eq_zero.mp (by omega)
  obtain ⟨c, s, hsome, hslen⟩ := deal_card_empty_pos perm hperm 1 (by omega)
  refine ⟨s, ?_, by omega⟩
  have h53 : dealN perm 1 53 (Shoe.shuffle perm 1 []) = dealN perm 1 1 s52 :=
    dealN_add perm 1 52 1 _ s52 hs52
  rw [h53, hnil, dealN, hsome]
  rfl

/-- Witness for C5 with `perm = id`, the length-removal conjunct
instantiated at the one-card shoe [A♠]. -/
theorem c5_shoe_deal_counts_witness :
    (Shoe.shuffle id 1 []).length = 52 ∧
    List.length ([] : List Card) + 1 = List.length [(⟨.A, .spade⟩ : Card)] ∧
    (∃ s, dealN id 1 52 (Shoe.shuffle id 1 []) = some s ∧ s.length = 0) ∧
    (∃ s, dealN id 1 53 (Shoe.shuffle id 1 []) = some s ∧ s.length = 51) :=
  ⟨(c5_shoe_deal_counts id (fun _ => rfl)).1,
   (c5_shoe_deal_counts id (fun _ => rfl)).2.1 [⟨.A, .spade⟩] ⟨.A, .spade⟩ []
     (by decide) (by decide),
   (c5_shoe_deal_counts id (fun _ => rfl)).2.2.1,
   (c5_shoe_deal_counts id (fun _ => rfl)).2.2.2⟩

/-- C8: the shoe's contents are a shared class-level list, so a shuffle
(in particular the one run by constructing another Shoe) appends
52×deck_count cards to whatever is already in the shared list rather
than starting empty; consequently the after-shuffle card count is
leftover + 52×d, which with one leftover card is 53 — not a multiple of
52. -/
theorem c8_shoe_list_is_shared (perm : List Card → List Card)
    (hperm : ∀ l, (perm l).length = l.length) :
    (∀ (d : Nat) (leftover : List Card),
      (Shoe.shuffle perm d leftover).length = leftover.length + 52 * d) ∧
    ¬ (52 ∣ (Shoe.shuffle id 1 [⟨.A, .spade⟩]).length) := by
  constructor
  · intro d leftover; exact length_shuffle perm hperm d leftover
  · have h : (Shoe.shuffle id 1 [(⟨.A, .spade⟩ : Card)]).length = 53 := by
      rw [length_shuffle id (fun _ => rfl)]; rfl
    rw [h]; decide

/-- Witness for C8 with `perm = id`, a second shoe of 2 decks built on
one leftover card. -/
theorem c8_shoe_list_is_shared_witness :
    (Shoe.shuffle id 2 [(⟨.A, .spade⟩ : Card)]).length =
      List.length [(⟨.A, .spade⟩ : Card)] + 52 * 2 ∧
    ¬ (52 ∣ (Shoe.shuffle id 1 [⟨.A, .spade⟩]).length) :=
  ⟨(c8_shoe_list_is_shared id (fun _ => rfl)).1 2 [⟨.A, .spade⟩],
   (c8_shoe_list_is_shared id (fun _ => rfl)).2⟩

/-- C10: `deal_card` is total exactly when `deck_count ≥ 1`: with the
shared list empty, a shoe configured with `deck_count = 0` reshuffles
to an empty list and the following `pop()` fails (`none`), while with
`deck_count ≥ 1` every `deal_card` call returns a card. -/
theorem c10_deal_card_totality (perm : List Card → List Card)
    (hperm : ∀ l, (perm l).length = l.length) :
    Shoe.deal_card perm 0 [] = none ∧
    ∀ d, 1 ≤ d → ∀ shoe, ∃ c s, Shoe.deal_card perm d shoe = some (c, s) := by
  constructor
  · have hnil : Shoe.shuffle perm 0 [] = [] :=
      List.length_eq_zero.mp (by rw [length_shuffle perm hperm]; rfl)
    rw [deal_card_empty_shoe, hnil]
    rfl
  · intro d hd shoe
    by_cases hne : shoe = []
    · subst hne
      obtain ⟨c, s, hsome, -⟩ := deal_card_empty_pos perm hperm d hd
      exact ⟨c, s, hsome⟩
    · exact ⟨shoe.getLast hne, shoe.dropLast, deal_card_nonempty perm d shoe hne⟩

/-- Witness for C10 with `perm = id`: deck_count 0 fails on the empty
shared list, deck_count 1 deals a card from it. -/
theorem c10_deal_card_totality_witness :
    Shoe.deal_card id 0 [] = none ∧
    ∃ c s, Shoe.deal_card id 1 [] = some (c, s) :=
  ⟨(c10_deal_card_totality id (fun _ => rfl)).1,
   (c10_deal_card_totality id (fun _ => rfl)).2 1 (by decide) []⟩

/-- Does `pat` occur at the head of `cs`? (helper for Python's
substring operator `in`). -/
def substrAt : List Char → List Char → Bool
  | [], _ => true
  | _ :: _, [] => false
  | p :: ps, c :: cs => p == c && substrAt ps cs

/-- Does `pat` occur anywhere in `cs`? -/
def containsSub (pat : List Char) : List Char → Bool
  | [] => substrAt pat []
  | c :: cs => substrAt pat (c :: cs) || containsSub pat cs

/-- Python's `pat in s` on strings: substring containment. -/
def strContains (s pat : String) : Bool :=
  containsSub pat.data s.data

/-- `Table.determine_winner`: compare the two hand values and return
the result message string exactly as the source does. -/
def determine_winner (player_hand dealer_hand : List Card) : String :=
  let player_value := calculate_value player_hand
  let dealer_value := calculate_value dealer_hand
  if player_value > 21 then "Dealer wins! You busted."
  else if dealer_value > 21 then "You win! Dealer busted."
  else if player_value > dealer_value then "You win!"
  else if dealer_value > player_value then "Dealer wins!"
  else "It\x27s a tie!"

/-- The balance update at the end of `Table.play_round` (the bet was
already deducted at betting time): credit `bet * 2` when the result
message contains "You win", credit `bet` back when it contains
"It's a tie", otherwise nothing. -/
def settle_balance (balance bet : Nat) (result : String) : Nat :=
  if strContains result "You win" then balance + bet * 2
  else if strContains result "It\x27s a tie" then balance + bet
  else balance

/-- C2: at settlement (bet already deducted): a player value over 21
loses regardless of the dealer; otherwise a dealer value over 21 wins
for the player; otherwise the higher value wins and equal values push.
The balance is credited 2×bet on a win, bet on a push, nothing on a
loss. -/
theorem c2_settlement (player_hand dealer_hand : List Card) (balance bet : Nat) :
    settle_balance balance bet (determine_winner player_hand dealer_hand) =
      if calculate_value player_hand > 21 then balance
      else if calculate_value dealer_hand > 21 then balance + bet * 2
      else if calculate_value player_hand > calculate_value dealer_hand then
        balance + bet * 2
      else if calculate_value dealer_hand > calculate_value player_hand then balance
      else balance + bet := by
  unfold determine_winner
  split_ifs <;>
    simp [*, settle_balance,
      show strContains "Dealer wins! You busted." "You win" = false by decide,
      show strContains "Dealer wins! You busted." "It\x27s a tie" = false by decide,
      show strContains "You win! Dealer busted." "You win" = true by decide,
      show strContains "You win!" "You win" = true by decide,
      show strContains "Dealer wins!" "You win" = false by decide,
      show strContains "Dealer wins!" "It\x27s a tie" = false by decide,
      show strContains "It\x27s a tie!" "You win" = false by decide,
      show strContains "It\x27s a tie!" "It\x27s a tie" = true by decide]

/-- Python's `int()` applied to a stripped input line: optional sign
followed by one or more digits, surrounding spaces ignored; anything
else raises `ValueError` (`none`). -/
def digitsToNat (cs : List Char) : Option Nat :=
  if !cs.isEmpty && cs.all Char.isDigit then
    some (cs.foldl (fun acc c => acc * 10 + (c.toNat - 48)) 0)
  else none

/-- Parse an input line the way `int(input(...))` does. -/
def parseInt (s : String) : Option Int :=
  let cs := ((s.data.dropWhile (fun c => c == ' ')).reverse.dropWhile
    (fun c => c == ' ')).reverse
  match cs with
  | [] => none
  | c :: rest =>
    if c == '-' then (digitsToNat rest).map (fun n => -(n : Int))
    else if c == '+' then (digitsToNat rest).map (fun n => (n : Int))
    else (digitsToNat cs).map (fun n => (n : Int))

/-- `Player.place_bet`: consume input lines until one parses as an
integer `bet` with `1 ≤ bet ≤ balance`; a `ValueError` or an
out-of-range value prints a message and re-prompts.  `none` models the
(blocking) case where the supplied input lines run out. -/
def place_bet (balance : Int) : List String → Option Int
  | [] => none
  | s :: rest =>
    match parseInt s with
    | none => place_bet balance rest
    | some bet =>
      if bet < 1 then place_bet balance rest
      else if bet > balance then place_bet balance rest
      else some bet

/-- C3: `place_bet` re-prompts (recurses on the remaining input)
on every non-numeric or out-of-range input without returning, and any
value it does return satisfies `1 ≤ bet ≤ balance`. -/
theorem c3_place_bet_validates (balance : Int) :
    (∀ (inputs : List String) (b : Int),
      place_bet balance inputs = some b → 1 ≤ b ∧ b ≤ balance) ∧
    (∀ (s : String) (rest : List String),
      (∀ n, parseInt s = some n → n < 1 ∨ balance < n) →
      place_bet balance (s :: rest) = place_bet balance rest) := by
  constructor
  · intro inputs
    induction inputs with
    | nil => intro b h; simp [place_bet] at h
    | cons s rest ih =>
      intro b h
      rcases hp : parseInt s with _ | n <;> simp only [place_bet, hp] at h
      · exact ih b h
      · by_cases h1 : n < 1
        · rw [if_pos h1] at h; exact ih b h
        · rw [if_neg h1] at h
          by_cases h2 : n > balance
          · rw [if_pos h2] at h; exact ih b h
          · rw [if_neg h2] at h
            obtain rfl : n = b := Option.some.inj h
            omega
  · intro s rest hinv
    rcases hp : parseInt s with _ | n <;> simp only [place_bet, hp]
    · by_cases h1 : n < 1
      · rw [if_pos h1]
      · rw [if_neg h1]
        rcases hinv n hp with h2 | h2
        · exact absurd h2 h1
        · rw [if_pos h2]

/-- Witness for C3: with balance 100 the inputs "abc", "0", "1000" are
all skipped and "50" is returned, within bounds; and "abc" alone causes
a re-prompt. -/
theorem c3_place_bet_validates_witness :
    (1 ≤ (50 : Int) ∧ (50 : Int) ≤ 100) ∧
    place_bet 100 ["abc", "0", "1000", "50"] = place_bet 100 ["0", "1000", "50"] :=
  ⟨(c3_place_bet_validates 100).1 ["abc", "0", "1000", "50"] 50 (by decide),
   (c3_place_bet_validates 100).2 "abc" ["0", "1000", "50"] (by decide)⟩

/-- Python's `str.lower()` (ASCII inputs). -/
def lowerStr (s : String) : String :=
  ⟨s.data.map Char.toLower⟩

/-- The observable outcome of `play_round` for the session loop: the
player's balance and both hands after the round settles. -/
structure RoundResult where
  balance : Nat
  pHand : List Card
  dHand : List Card

/-- How `Table.play_table` ends. -/
inductive SessionEnd where
  | outOfMoney : SessionEnd
  | walkAway : Nat → SessionEnd
  | inputExhausted : SessionEnd
  | notEntered : SessionEnd
deriving DecidableEq, Repr

/-- What `Table.play_table` did: how it ended, how many continue
prompts it issued, and how many rounds (hence bet prompts) it played. -/
structure SessionTrace where
  ended : SessionEnd
  continuePrompts : Nat
  roundsPlayed : Nat
deriving DecidableEq, Repr

/-- `Table.play_table`, with `play_round` abstracted by the list
`rounds` of successive post-round states and the continue prompt fed
from `answers`: while the balance is positive, play a round; if the
balance is then exactly 0, stop (out of money, no prompt); otherwise
ask to continue; any answer whose lowercase form is not "y" stops with
the balance reported; "y" resets both hands and loops. -/
def play_table (balance : Nat) (_pHand _dHand : List Card)
    (rounds : List RoundResult) (answers : List String) : SessionTrace :=
  if 0 < balance then
    match rounds with
    | [] => ⟨.inputExhausted, 0, 0⟩
    | r :: rest =>
      if r.balance = 0 then ⟨.outOfMoney, 0, 1⟩
      else
        match answers with
        | [] => ⟨.inputExhausted, 0, 1⟩
        | a :: answers =>
          if lowerStr a ≠ "y" then ⟨.walkAway r.balance, 1, 1⟩
          else
            let t := play_table r.balance [] [] rest answers
            ⟨t.ended, t.continuePrompts + 1, t.roundsPlayed + 1⟩
  else ⟨.notEntered, 0, 0⟩

/-- C7: in the session loop, a round that leaves the balance at exactly
0 ends the session with no continue prompt and no further round (so no
bet prompt); otherwise the continue prompt is issued: a non-affirmative
answer ends the session reporting the round's balance, and an
affirmative answer resets both hands and loops back to betting. -/
theorem c7_session_loop (bal : Nat) (pHand dHand : List Card) (r : RoundResult)
    (rest : List RoundResult) (hbal : 0 < bal) :
    (r.balance = 0 → ∀ answers,
      play_table bal pHand dHand (r :: rest) answers = ⟨.outOfMoney, 0, 1⟩) ∧
    (∀ a answers, r.balance ≠ 0 → lowerStr a ≠ "y" →
      play_table bal pHand dHand (r :: rest) (a :: answers) =
        ⟨.walkAway r.balance, 1, 1⟩) ∧
    (∀ a answers, r.balance ≠ 0 → lowerStr a = "y" →
      play_table bal pHand dHand (r :: rest) (a :: answers) =
        ⟨(play_table r.balance [] [] rest answers).ended,
         (play_table r.balance [] [] rest answers).continuePrompts + 1,
         (play_table r.balance [] [] rest answers).roundsPlayed + 1⟩) := by
  refine ⟨?_, ?_, ?_⟩
  · intro h0 answers
    rw [play_table.eq_def, if_pos hbal]
    simp [h0]
  · intro a answers hne hno
    rw [play_table.eq_def, if_pos hbal]
    simp [hne, hno]
  · intro a answers hne hyes
    rw [play_table.eq_def, if_pos hbal]
    simp [hne, hyes]

/-- Witness for C7: concrete sessions from balance 100 — a round ending
at balance 0 stops promptlessly; at balance 50, answer "n" stops and
answer "y" loops with hands reset. -/
theorem c7_session_loop_witness :
    play_table 100 [] [] [⟨0, [], []⟩] [] = ⟨.outOfMoney, 0, 1⟩ ∧
    play_table 100 [] [] [⟨50, [], []⟩] ["n"] = ⟨.walkAway 50, 1, 1⟩ ∧
    play_table 100 [] [] [⟨50, [], []⟩] ["y"] =
      ⟨(play_table 50 [] [] [] []).ended,
       (play_table 50 [] [] [] []).continuePrompts + 1,
       (play_table 50 [] [] [] []).roundsPlayed + 1⟩ :=
  ⟨(c7_session_loop 100 [] [] ⟨0, [], []⟩ [] (by decide)).1 rfl [],
   (c7_session_loop 100 [] [] ⟨50, [], []⟩ [] (by decide)).2.1 "n" []
     (by decide) (by decide),
   (c7_session_loop 100 [] [] ⟨50, [], []⟩ [] (by decide)).2.2 "y" []
     (by decide) (by decide)⟩

end Blackjack
